import Mathlib

/-!
Shallow embedding of the Mana NFT collection contract
(src/assembly Collections class and Constants).

Storage maps are modelled as total functions with the same defaults the
contract supplies to its storage objects. A failed System.require or a
SafeMath trap aborts the whole transaction with no state change (the
platform reverts every prior write), so each mutating operation returns
Except Err (State × List Event): an error means the pre-state is kept.
-/

namespace ManaNFT

/-- Account addresses (byte sequences in the contract, compared with
Arrays.equal) are modelled as strings with decidable equality. -/
abbrev Addr := String

/-- Exclusive upper bound of u64 values. -/
def U64LIMIT : Nat := 2 ^ 64

namespace Constants

/-- Price in mana to mint a new token. -/
def MINT_PRICE : Nat := 100000000

/-- Maximum supply of NFTs in the collection. -/
def MAX_SUPPLY : Nat := 10000000

end Constants

/-- Error classes following the specification's taxonomy, mapped from the
contract's System.require and SafeMath failure sites. -/
inductive Err where
  | validationError
  | capacityError
  | authorizationError
  | notFoundError
  | invariantViolation
  | insufficientBalance
deriving Repr, DecidableEq

/-- Domain events emitted by the mutating entry points. -/
inductive Event where
  | royaltiesE (schedule : List (Addr × Nat))
  | ownerE (oldOwner newOwner : Addr)
  | mintE (dst : Addr) (tokenId : String)
  | transferE (fr dst : Addr) (tokenId : String)
  | approvalE (approver dst : Addr) (tokenId : String)
  | operatorE (approver op : Addr) (approved : Bool)
deriving Repr, DecidableEq

/-- The contract's stored collections: supply counter, token records
(token id to owner), balances, single-token approvals, operator
approvals keyed by the (operator, owner) composite key, per-owner token
lists, configuration (owner and royalties) and the configured mana mint
price. -/
structure State where
  supply : Nat
  tokens : String → Option Addr
  balances : Addr → Nat
  approvals : String → Option Addr
  operators : Addr × Addr → Option Bool
  tokensOf : Addr → List String
  configOwner : Addr
  royalties : List (Addr × Nat)
  manaCost : Nat

/-- Initial state: every storage object holds its declared default. -/
def initState (owner : Addr) : State where
  supply := 0
  tokens := fun _ => none
  balances := fun _ => 0
  approvals := fun _ => none
  operators := fun _ => none
  tokensOf := fun _ => []
  configOwner := owner
  royalties := []
  manaCost := Constants.MINT_PRICE

/-- SafeMath.add on u64: traps (reverts) on overflow. -/
def safeAdd (a b : Nat) : Except Err Nat :=
  if a + b < U64LIMIT then .ok (a + b) else .error .capacityError

/-- SafeMath.sub on u64: traps on underflow. -/
def safeSub (a b : Nat) : Except Err Nat :=
  if b ≤ a then .ok (a - b) else .error .insufficientBalance

/-- SafeMath.mul on u64: traps on overflow. -/
def safeMul (a b : Nat) : Except Err Nat :=
  if a * b < U64LIMIT then .ok (a * b) else .error .capacityError

/-- SafeMath.div on u64: traps on division by zero. -/
def safeDiv (a b : Nat) : Except Err Nat :=
  if b = 0 then .error .capacityError else .ok (a / b)

/-- Read query: total_supply. -/
def total_supply (s : State) : Nat :=
  s.supply

/-- Read query: balance_of (defaults to 0 for unseen accounts). -/
def balance_of (s : State) (owner : Addr) : Nat :=
  s.balances owner

/-- Read query: tokens_of (defaults to the empty list). -/
def tokens_of (s : State) (owner : Addr) : List String :=
  s.tokensOf owner

/-- Read query: owner_of; absent value when the token does not exist. -/
def owner_of (s : State) (tokenId : String) : Option Addr :=
  s.tokens tokenId

/-- Read query: get_approved; absent value when no approval exists. -/
def get_approved (s : State) (tokenId : String) : Option Addr :=
  s.approvals tokenId

/-- Read query: is_approved_for_all, looking up the (operator, owner)
composite key. -/
def is_approved_for_all (s : State) (owner op : Addr) : Bool :=
  match s.operators (op, owner) with
  | some b => b
  | none => false

/-- Sum of the royalty amounts, accumulated with SafeMath.add exactly as
the source's loop does. -/
def royaltiesSum (acc : Nat) : List (Addr × Nat) → Except Err Nat
  | [] => .ok acc
  | r :: rs =>
    match safeAdd acc r.2 with
    | .error e => .error e
    | .ok acc2 => royaltiesSum acc2 rs

/-- set_royalties: requires authority of the configured owner, checks the
summed amounts against 10000 basis points, then replaces the schedule. -/
def set_royalties (s : State) (auth : Addr → Bool) (value : List (Addr × Nat)) :
    Except Err (State × List Event) :=
  if auth s.configOwner then
    match royaltiesSum 0 value with
    | .error e => .error e
    | .ok total =>
      if total ≤ 10000 then
        .ok ({ s with royalties := value }, [Event.royaltiesE value])
      else .error .validationError
  else .error .authorizationError

/-- transfer_ownership: requires authority of the configured owner, then
replaces it. -/
def transfer_ownership (s : State) (auth : Addr → Bool) (newOwner : Addr) :
    Except Err (State × List Event) :=
  if auth s.configOwner then
    .ok ({ s with configOwner := newOwner },
      [Event.ownerE s.configOwner newOwner])
  else .error .authorizationError

/-- The mint loop: for each index from start upward, store the token
record, append the id to the recipient's token list, and emit a mint
event. The counter argument is the number of remaining iterations. -/
def mintLoop (s : State) (dst : Addr) (idx : Nat) : Nat → State × List Event
  | 0 => (s, [])
  | Nat.succ k =>
    let tokenId := toString idx
    let s1 : State :=
      { s with
        tokens := fun t => if t = tokenId then some dst else s.tokens t,
        tokensOf := fun a =>
          if a = dst then s.tokensOf dst ++ [tokenId] else s.tokensOf a }
    let p := mintLoop s1 dst (idx + 1) k
    (p.1, Event.mintE dst tokenId :: p.2)

/-- Mana attributed to the mint operation itself: fixed per-operation
weights multiplied by the platform's current per-unit costs, combined
with SafeMath in the source's association. -/
def manaAttributed (cCost nCost dCost : Nat) : Except Err Nat :=
  match safeMul 1123019 cCost with
  | .error e => .error e
  | .ok a =>
    match safeMul 282 nCost with
    | .error e => .error e
    | .ok b =>
      match safeAdd a b with
      | .error e => .error e
      | .ok ab =>
        match safeMul 66 dCost with
        | .error e => .error e
        | .ok dd => safeAdd ab dd

/-- _consumeMana: the number of no-effect loop iterations performed is
(manaToConsume / computeCost) / 14, with SafeMath division. -/
def consumeManaLoops (manaToConsume computeCost : Nat) : Except Err Nat :=
  match safeDiv manaToConsume computeCost with
  | .error e => .error e
  | .ok computeToConsume => safeDiv computeToConsume 14

/-- mint: checks the per-call count limit and the supply ceiling, creates
the new token records and reverse-index entries, credits the balance,
commits the supply, then burns the residual mana. The third component of
a successful result is the number of no-effect work loop iterations
performed by _consumeMana. -/
def mint (s : State) (dst : Addr) (count : Nat) (cCost nCost dCost : Nat) :
    Except Err (State × List Event × Nat) :=
  match safeAdd s.supply count with
  | .error e => .error e
  | .ok tokens =>
    if count ≤ 10 then
      if tokens = 0 then .error .capacityError
      else if tokens ≤ Constants.MAX_SUPPLY then
        match safeAdd s.supply 1 with
        | .error e => .error e
        | .ok start =>
          let p := mintLoop s dst start count
          match safeAdd (s.balances dst) count with
          | .error e => .error e
          | .ok newBal =>
            if newBal ≤ Constants.MAX_SUPPLY then
              match safeAdd s.supply count with
              | .error e => .error e
              | .ok newSupply =>
                let s2 : State :=
                  { p.1 with
                    balances := fun a =>
                      if a = dst then newBal else p.1.balances a,
                    supply := newSupply }
                match manaAttributed cCost nCost dCost with
                | .error e => .error e
                | .ok attributed =>
                  match safeMul p.1.manaCost count with
                  | .error e => .error e
                  | .ok total =>
                    let remaining :=
                      if attributed < total then total - attributed else 0
                    match consumeManaLoops remaining cCost with
                    | .error e => .error e
                    | .ok loops => .ok (s2, p.2, loops)
            else .error .capacityError
      else .error .capacityError
    else .error .validationError

/-- burn: declared but a no-op; returns the empty acknowledgment. -/
def burn (s : State) (_tokenId : String) : Except Err (State × List Event) :=
  .ok (s, [])

/-- The transfer authorization chain of the source: the caller is the
sender, or holds the single-token approval, or holds an operator approval
keyed by (caller, token owner), or System.checkAuthority confirms
contract-call authority for the sender. -/
def transferAuthorized (s : State) (auth : Addr → Bool)
    (caller fr owner : Addr) (tokenId : String) : Bool :=
  if caller = fr then true
  else
    let direct : Bool :=
      match s.approvals tokenId with
      | some a => a == caller
      | none => false
    let withOp : Bool :=
      if direct then direct
      else
        match s.operators (caller, owner) with
        | some b => b
        | none => false
    if withOp then withOp else auth fr

/-- The mutation part of transfer, reached after the existence, ownership
and authorization checks: clear the approval, move ownership, adjust both
balances, and move the id between the two token lists. The source writes
the sender's token list before the receiver's and the receiver's balance
before the sender's, so on key collision the later put wins. -/
def transferWrites (s : State) (fr dst : Addr) (tokenId : String) :
    Except Err (State × List Event) :=
  let approvals1 : String → Option Addr :=
    fun k => if k = tokenId then none else s.approvals k
  match safeSub (s.balances fr) 1 with
  | .error e => .error e
  | .ok bf =>
    match safeAdd (s.balances dst) 1 with
    | .error e => .error e
    | .ok bt =>
      let listFrom := s.tokensOf fr
      let listTo := s.tokensOf dst
      let idx := listFrom.indexOf tokenId
      if idx < listFrom.length then
        let listFrom2 := listFrom.eraseIdx idx
        let listTo2 := listTo ++ [tokenId]
        let tokensOf1 : Addr → List String :=
          fun a => if a = fr then listFrom2 else s.tokensOf a
        let tokensOf2 : Addr → List String :=
          fun a => if a = dst then listTo2 else tokensOf1 a
        let tokens2 : String → Option Addr :=
          fun k => if k = tokenId then some dst else s.tokens k
        let balances1 : Addr → Nat :=
          fun a => if a = dst then bt else s.balances a
        let balances2 : Addr → Nat :=
          fun a => if a = fr then bf else balances1 a
        .ok ({ s with
                approvals := approvals1,
                tokens := tokens2,
                balances := balances2,
                tokensOf := tokensOf2 },
             [Event.transferE fr dst tokenId])
      else .error .invariantViolation

/-- transfer: existence check, ownership check, authorization chain, then
the writes. -/
def transfer (s : State) (caller : Addr) (auth : Addr → Bool)
    (fr dst : Addr) (tokenId : String) : Except Err (State × List Event) :=
  match s.tokens tokenId with
  | none => .error .notFoundError
  | some owner =>
    if owner = fr then
      if transferAuthorized s auth caller fr owner tokenId then
        transferWrites s fr dst tokenId
      else .error .authorizationError
    else .error .authorizationError

/-- approve: requires authority of the approver, the token must exist,
the approval target must differ from the owner, and a non-owner approver
must hold an operator approval; then the single-token approval is set. -/
def approve (s : State) (auth : Addr → Bool) (approver dst : Addr)
    (tokenId : String) : Except Err (State × List Event) :=
  if auth approver then
    match s.tokens tokenId with
    | none => .error .notFoundError
    | some owner =>
      if owner = dst then .error .validationError
      else
        let authorized : Except Err Unit :=
          if owner = approver then .ok ()
          else
            match s.operators (approver, owner) with
            | none => .error .authorizationError
            | some b => if b then .ok () else .error .authorizationError
        match authorized with
        | .error e => .error e
        | .ok _ =>
          .ok ({ s with
                  approvals := fun k =>
                    if k = tokenId then some dst else s.approvals k },
               [Event.approvalE approver dst tokenId])
  else .error .authorizationError

/-- set_approval_for_all: requires authority of the approver, forbids
approver = operator, then stores the operator approval under the
(operator, approver) composite key. -/
def set_approval_for_all (s : State) (auth : Addr → Bool)
    (approver op : Addr) (approved : Bool) :
    Except Err (State × List Event) :=
  if auth approver then
    if approver = op then .error .authorizationError
    else
      .ok ({ s with
              operators := fun k =>
                if k = (op, approver) then some approved else s.operators k },
           [Event.operatorE approver op approved])
  else .error .authorizationError

end ManaNFT

namespace ManaNFT

/-- First projection of an operation result: the post-state on success,
the supplied pre-state on failure (the platform reverts). -/
def stOf (r : Except Err (State × List Event)) (pre : State) : State :=
  match r with
  | .ok p => p.1
  | .error _ => pre

/-- Events of an operation result (empty on failure). -/
def evOf (r : Except Err (State × List Event)) : List Event :=
  match r with
  | .ok p => p.2
  | .error _ => []

/-- Post-state of a mint result. -/
def mintStOf (r : Except Err (State × List Event × Nat)) (pre : State) :
    State :=
  match r with
  | .ok p => p.1
  | .error _ => pre

/-- Events of a mint result. -/
def mintEvOf (r : Except Err (State × List Event × Nat)) : List Event :=
  match r with
  | .ok p => p.2.1
  | .error _ => []

/-- Work loop count of a mint result. -/
def mintLoopsOf (r : Except Err (State × List Event × Nat)) : Nat :=
  match r with
  | .ok p => p.2.2
  | .error _ => 0

/-- Whether an operation result is a success. -/
def okE {α : Type} (r : Except Err α) : Bool :=
  match r with
  | .ok _ => true
  | .error _ => false

/-- States reachable from the initial empty state by sequences of
successful public operations, under arbitrary callers, authority-oracle
answers and platform resource costs. -/
inductive Reachable : State → Prop where
  | init (owner : Addr) : Reachable (initState owner)
  | step_mint {s s2 : State} {ev : List Event} {l : Nat}
      (dst : Addr) (count c n d : Nat) :
      Reachable s → mint s dst count c n d = .ok (s2, ev, l) → Reachable s2
  | step_transfer {s s2 : State} {ev : List Event}
      (caller : Addr) (auth : Addr → Bool) (fr dst : Addr) (tid : String) :
      Reachable s → transfer s caller auth fr dst tid = .ok (s2, ev) →
      Reachable s2
  | step_approve {s s2 : State} {ev : List Event}
      (auth : Addr → Bool) (approver dst : Addr) (tid : String) :
      Reachable s → approve s auth approver dst tid = .ok (s2, ev) →
      Reachable s2
  | step_setApprovalForAll {s s2 : State} {ev : List Event}
      (auth : Addr → Bool) (approver op : Addr) (b : Bool) :
      Reachable s → set_approval_for_all s auth approver op b = .ok (s2, ev) →
      Reachable s2
  | step_burn {s s2 : State} {ev : List Event} (tid : String) :
      Reachable s → burn s tid = .ok (s2, ev) → Reachable s2
  | step_setRoyalties {s s2 : State} {ev : List Event}
      (auth : Addr → Bool) (value : List (Addr × Nat)) :
      Reachable s → set_royalties s auth value = .ok (s2, ev) → Reachable s2
  | step_transferOwnership {s s2 : State} {ev : List Event}
      (auth : Addr → Bool) (newOwner : Addr) :
      Reachable s → transfer_ownership s auth newOwner = .ok (s2, ev) →
      Reachable s2

end ManaNFT

namespace ManaNFT

theorem safeAdd_ok {a b c : Nat} (h : safeAdd a b = .ok c) :
    c = a + b ∧ a + b < U64LIMIT := by
  unfold safeAdd at h
  split at h
  · exact ⟨(Except.ok.injEq _ _).mp h.symm, by assumption⟩
  · exact absurd h (by simp)

theorem safeAdd_ok_of {a b : Nat} (h : a + b < U64LIMIT) :
    safeAdd a b = .ok (a + b) := by
  unfold safeAdd
  simp [h]

theorem safeSub_ok {a b c : Nat} (h : safeSub a b = .ok c) :
    c = a - b ∧ b ≤ a := by
  unfold safeSub at h
  split at h
  · exact ⟨(Except.ok.injEq _ _).mp h.symm, by assumption⟩
  · exact absurd h (by simp)

theorem safeMul_ok {a b c : Nat} (h : safeMul a b = .ok c) :
    c = a * b ∧ a * b < U64LIMIT := by
  unfold safeMul at h
  split at h
  · exact ⟨(Except.ok.injEq _ _).mp h.symm, by assumption⟩
  · exact absurd h (by simp)

theorem safeDiv_ok {a b c : Nat} (h : safeDiv a b = .ok c) :
    c = a / b ∧ b ≠ 0 := by
  unfold safeDiv at h
  split at h
  · exact absurd h (by simp)
  · exact ⟨(Except.ok.injEq _ _).mp h.symm, by assumption⟩

theorem mintLoop_supply (dst : Addr) :
    ∀ (k : Nat) (s : State) (idx : Nat),
      (mintLoop s dst idx k).1.supply = s.supply := by
  intro k
  induction k with
  | zero => intro s idx; rfl
  | succ k ih =>
    intro s idx
    simp only [mintLoop]
    exact ih _ _

theorem mintLoop_manaCost (dst : Addr) :
    ∀ (k : Nat) (s : State) (idx : Nat),
      (mintLoop s dst idx k).1.manaCost = s.manaCost := by
  intro k
  induction k with
  | zero => intro s idx; rfl
  | succ k ih =>
    intro s idx
    simp only [mintLoop]
    exact ih _ _

theorem mintLoop_balances (dst : Addr) :
    ∀ (k : Nat) (s : State) (idx : Nat),
      (mintLoop s dst idx k).1.balances = s.balances := by
  intro k
  induction k with
  | zero => intro s idx; rfl
  | succ k ih =>
    intro s idx
    simp only [mintLoop]
    exact ih _ _

/-- Success of mint pins the post-supply and the ceiling check. -/
theorem mint_ok_supply {s s2 : State} {ev : List Event} {l : Nat}
    {dst : Addr} {count c n d : Nat}
    (h : mint s dst count c n d = .ok (s2, ev, l)) :
    s2.supply = s.supply + count ∧ s.supply + count ≤ Constants.MAX_SUPPLY := by
  unfold mint at h
  split at h
  · exact absurd h (by simp)
  next tokens htok =>
    obtain ⟨rfl, _⟩ := safeAdd_ok htok
    split at h
    · split at h
      · exact absurd h (by simp)
      · split at h
        · split at h
          · exact absurd h (by simp)
          · split at h
            · exact absurd h (by simp)
            next newBal hbal =>
              split at h
              · split at h
                · exact absurd h (by simp)
                next newSupply hsup =>
                  injection hsup with hsup2
                  subst hsup2
                  dsimp only at h
                  split at h
                  · exact absurd h (by simp)
                  · split at h
                    · exact absurd h (by simp)
                    · split at h
                      · exact absurd h (by simp)
                      · refine ⟨?_, by assumption⟩
                        have := (Prod.mk.injEq _ _ _ _).mp
                          ((Except.ok.injEq _ _).mp h)
                        rw [← this.1]
              · exact absurd h (by simp)
        · exact absurd h (by simp)
    · exact absurd h (by simp)

end ManaNFT

namespace ManaNFT

theorem transferWrites_ok_supply {s s2 : State} {ev : List Event}
    {fr dst : Addr} {tid : String}
    (h : transferWrites s fr dst tid = .ok (s2, ev)) :
    s2.supply = s.supply := by
  unfold transferWrites at h
  dsimp only at h
  split at h
  · exact absurd h (by simp)
  · split at h
    · exact absurd h (by simp)
    · split at h
      · have := (Prod.mk.injEq _ _ _ _).mp ((Except.ok.injEq _ _).mp h)
        rw [← this.1]
      · exact absurd h (by simp)

theorem transfer_ok_supply {s s2 : State} {ev : List Event}
    {caller : Addr} {auth : Addr → Bool} {fr dst : Addr} {tid : String}
    (h : transfer s caller auth fr dst tid = .ok (s2, ev)) :
    s2.supply = s.supply := by
  unfold transfer at h
  split at h
  · exact absurd h (by simp)
  · split at h
    · split at h
      · exact transferWrites_ok_supply h
      · exact absurd h (by simp)
    · exact absurd h (by simp)

theorem approve_ok_supply {s s2 : State} {ev : List Event}
    {auth : Addr → Bool} {approver dst : Addr} {tid : String}
    (h : approve s auth approver dst tid = .ok (s2, ev)) :
    s2.supply = s.supply := by
  unfold approve at h
  split at h
  · split at h
    · exact absurd h (by simp)
    · split at h
      · exact absurd h (by simp)
      · dsimp only at h
        split at h
        · exact absurd h (by simp)
        · have := (Prod.mk.injEq _ _ _ _).mp ((Except.ok.injEq _ _).mp h)
          rw [← this.1]
  · exact absurd h (by simp)

theorem setApprovalForAll_ok_supply {s s2 : State} {ev : List Event}
    {auth : Addr → Bool} {approver op : Addr} {b : Bool}
    (h : set_approval_for_all s auth approver op b = .ok (s2, ev)) :
    s2.supply = s.supply := by
  unfold set_approval_for_all at h
  split at h
  · split at h
    · exact absurd h (by simp)
    · have := (Prod.mk.injEq _ _ _ _).mp ((Except.ok.injEq _ _).mp h)
      rw [← this.1]
  · exact absurd h (by simp)

theorem burn_ok_supply {s s2 : State} {ev : List Event} {tid : String}
    (h : burn s tid = .ok (s2, ev)) : s2.supply = s.supply := by
  unfold burn at h
  have := (Prod.mk.injEq _ _ _ _).mp ((Except.ok.injEq _ _).mp h)
  rw [← this.1]

theorem setRoyalties_ok_supply {s s2 : State} {ev : List Event}
    {auth : Addr → Bool} {value : List (Addr × Nat)}
    (h : set_royalties s auth value = .ok (s2, ev)) :
    s2.supply = s.supply := by
  unfold set_royalties at h
  split at h
  · split at h
    · exact absurd h (by simp)
    · split at h
      · have := (Prod.mk.injEq _ _ _ _).mp ((Except.ok.injEq _ _).mp h)
        rw [← this.1]
      · exact absurd h (by simp)
  · exact absurd h (by simp)

theorem transferOwnership_ok_supply {s s2 : State} {ev : List Event}
    {auth : Addr → Bool} {newOwner : Addr}
    (h : transfer_ownership s auth newOwner = .ok (s2, ev)) :
    s2.supply = s.supply := by
  unfold transfer_ownership at h
  split at h
  · have := (Prod.mk.injEq _ _ _ _).mp ((Except.ok.injEq _ _).mp h)
    rw [← this.1]
  · exact absurd h (by simp)

/-- Every reachable state keeps its supply within the ceiling. -/
theorem reachable_supply_le {s : State} (h : Reachable s) :
    s.supply ≤ Constants.MAX_SUPPLY := by
  induction h with
  | init owner => exact Nat.zero_le _
  | step_mint dst count c n d _ hop _ =>
    obtain ⟨h1, h2⟩ := mint_ok_supply hop
    rw [h1]; exact h2
  | step_transfer caller auth fr dst tid _ hop ih =>
    rw [transfer_ok_supply hop]; exact ih
  | step_approve auth approver dst tid _ hop ih =>
    rw [approve_ok_supply hop]; exact ih
  | step_setApprovalForAll auth approver op b _ hop ih =>
    rw [setApprovalForAll_ok_supply hop]; exact ih
  | step_burn tid _ hop ih =>
    rw [burn_ok_supply hop]; exact ih
  | step_setRoyalties auth value _ hop ih =>
    rw [setRoyalties_ok_supply hop]; exact ih
  | step_transferOwnership auth newOwner _ hop ih =>
    rw [transferOwnership_ok_supply hop]; exact ih

end ManaNFT

namespace ManaNFT

/-- With the count cap respected, a mint pushing the supply past the
ceiling fails with the capacity error (either at the overflow-checked
addition or at the ceiling require). -/
theorem mint_capacity {s : State} {dst : Addr} {count c n d : Nat}
    (hc : count ≤ 10) (hover : Constants.MAX_SUPPLY < s.supply + count) :
    mint s dst count c n d = .error .capacityError := by
  unfold mint
  by_cases hlt : s.supply + count < U64LIMIT
  · rw [safeAdd_ok_of hlt]
    dsimp only
    rw [if_pos hc, if_neg (by unfold Constants.MAX_SUPPLY at hover; omega),
      if_neg (by omega)]
  · have hbad : safeAdd s.supply count = .error .capacityError := by
      unfold safeAdd
      rw [if_neg hlt]
    rw [hbad]

/-- Shared concrete initial state for witnesses. -/
def theInit : State := initState "O"

/-- Authority oracle answering no for every account. -/
def authNone : Addr → Bool := fun _ => false

/-- Authority oracle answering yes for every account. -/
def authAll : Addr → Bool := fun _ => true

/-- Concrete state after minting one token to account A. -/
def sOne : State := mintStOf (mint theInit "A" 1 1 1 1) theInit

/-- Concrete state whose supply sits at the ceiling. -/
def sFull : State := { theInit with supply := Constants.MAX_SUPPLY }

/-- C2 (amended): in every reachable state Supply ≤ MAX_SUPPLY; for every
state, a mint request with count ≤ 10 and Supply + count > MAX_SUPPLY
fails with CapacityError and leaves the state unchanged; and a successful
mint increases Supply by exactly count. -/
theorem c2_supply_bounds :
    (∀ s : State, Reachable s → s.supply ≤ Constants.MAX_SUPPLY) ∧
    (∀ (s : State) (dst : Addr) (count c n d : Nat),
      count ≤ 10 → Constants.MAX_SUPPLY < s.supply + count →
      mint s dst count c n d = .error .capacityError ∧
      mintStOf (mint s dst count c n d) s = s) ∧
    (∀ (s : State) (dst : Addr) (count c n d : Nat) (s2 : State)
      (ev : List Event) (l : Nat),
      mint s dst count c n d = .ok (s2, ev, l) →
      s2.supply = s.supply + count) := by
  refine ⟨fun _ h => reachable_supply_le h, ?_,
    fun _ _ _ _ _ _ _ _ _ h => (mint_ok_supply h).1⟩
  intro s dst count c n d hc hover
  have he := @mint_capacity s dst count c n d hc hover
  exact ⟨he, by rw [mintStOf.eq_def, he]⟩

/-- C2 counterexample: at the ceiling state, a mint request for 11 tokens
(whose new total also exceeds MAX_SUPPLY) fails with ValidationError,
not CapacityError, because the per-call count limit is checked first. -/
theorem c2_counterexample :
    mint sFull "A" 11 1 1 1 = .error .validationError ∧
    Err.validationError ≠ Err.capacityError :=
  ⟨rfl, by decide⟩

/-- C2 witness: the three parts of the amended claim at concrete inputs. -/
theorem c2_supply_bounds_witness :
    theInit.supply ≤ Constants.MAX_SUPPLY ∧
    mint sFull "A" 5 1 1 1 = .error .capacityError ∧
    sOne.supply = theInit.supply + 1 :=
  ⟨c2_supply_bounds.1 theInit (Reachable.init "O"),
   (c2_supply_bounds.2.1 sFull "A" 5 1 1 1 (by decide) (by decide)).1,
   c2_supply_bounds.2.2 theInit "A" 1 1 1 1 sOne (mintEvOf (mint theInit "A" 1 1 1 1))
     (mintLoopsOf (mint theInit "A" 1 1 1 1)) rfl⟩

end ManaNFT

namespace ManaNFT

/-- C6 (amended): for every u64-consistent state (supply within the
ceiling), mint with count 11 fails with ValidationError; mint with
count 0 fails (with CapacityError, from the zero new-total check) only
when the supply is 0 — from any state with supply at least 1 a mint of 0
tokens succeeds as a no-op, so the enforced precondition is
count ≤ 10 together with supply + count ≥ 1, not 1 ≤ count ≤ 10. -/
theorem c6_mint_count_bounds (s : State) (dst : Addr) (c n d : Nat)
    (hs : s.supply ≤ Constants.MAX_SUPPLY) :
    mint s dst 11 c n d = .error .validationError ∧
    (s.supply = 0 → mint s dst 0 c n d = .error .capacityError) := by
  unfold Constants.MAX_SUPPLY at hs
  constructor
  · unfold mint
    rw [safeAdd_ok_of (by unfold U64LIMIT; omega)]
    dsimp only
    rw [if_neg (by omega)]
  · intro hz
    unfold mint
    have hadd : safeAdd s.supply 0 = Except.ok 0 := by
      rw [hz]
      rfl
    rw [hadd]
    rfl

/-- C6 counterexample: from the reachable state holding one minted token
(supply 1), a mint request for 0 tokens succeeds instead of failing. -/
theorem c6_counterexample : okE (mint sOne "B" 0 1 1 1) = true := by
  rfl

/-- C6 witness: the amended claim at the initial state. -/
theorem c6_mint_count_bounds_witness :
    mint theInit "A" 11 1 1 1 = .error .validationError ∧
    (theInit.supply = 0 → mint theInit "A" 0 1 1 1 = .error .capacityError) :=
  c6_mint_count_bounds theInit "A" 1 1 1 (by decide)

end ManaNFT

namespace ManaNFT

/-- C9: burn succeeds for every argument and every state, returns the
empty acknowledgment, emits no event, and leaves the whole state (supply,
tokens, balances, token lists, approvals, operator approvals, config and
mana price) unchanged. -/
theorem c9_burn_noop (s : State) (tid : String) :
    burn s tid = .ok (s, ([] : List Event)) :=
  rfl

/-- The SafeMath accumulation of royalty amounts succeeds and returns the
plain sum whenever the overall sum fits in u64 (partial sums of naturals
are monotone). -/
theorem royaltiesSum_ok :
    ∀ (v : List (Addr × Nat)) (acc : Nat),
      acc + (v.map Prod.snd).sum < U64LIMIT →
      royaltiesSum acc v = .ok (acc + (v.map Prod.snd).sum) := by
  intro v
  induction v with
  | nil =>
    intro acc _
    simp [royaltiesSum]
  | cons r rs ih =>
    intro acc hlt
    simp only [List.map_cons, List.sum_cons] at hlt
    have h1 : acc + r.2 < U64LIMIT := by omega
    simp only [royaltiesSum, safeAdd_ok_of h1]
    rw [ih (acc + r.2) (by omega)]
    simp only [List.map_cons, List.sum_cons]
    congr 1
    omega

/-- C7: with the caller authorized as the configured collection owner, a
royalty schedule whose amounts sum to 10001 is rejected (schedule kept),
while a schedule summing to exactly 10000 replaces the stored one. -/
theorem c7_royalty_boundary (s : State) (auth : Addr → Bool)
    (v : List (Addr × Nat)) (hauth : auth s.configOwner = true) :
    ((v.map Prod.snd).sum = 10001 →
      set_royalties s auth v = .error .validationError ∧
      stOf (set_royalties s auth v) s = s) ∧
    ((v.map Prod.snd).sum = 10000 →
      set_royalties s auth v =
        .ok ({ s with royalties := v }, [Event.royaltiesE v])) := by
  constructor
  · intro hsum
    have hrun : set_royalties s auth v = .error .validationError := by
      unfold set_royalties
      rw [if_pos hauth,
        royaltiesSum_ok v 0 (by rw [hsum]; unfold U64LIMIT; omega)]
      dsimp only
      rw [hsum]
      rfl
    exact ⟨hrun, by rw [stOf.eq_def, hrun]⟩
  · intro hsum
    unfold set_royalties
    rw [if_pos hauth,
      royaltiesSum_ok v 0 (by rw [hsum]; unfold U64LIMIT; omega)]
    dsimp only
    rw [hsum]
    rfl

/-- C7 witness: the two boundary schedules at the initial state with an
all-yes authority oracle. -/
theorem c7_royalty_boundary_witness :
    set_royalties theInit authAll [("R", 10001)] = .error .validationError ∧
    set_royalties theInit authAll [("R", 10000)] =
      .ok ({ theInit with royalties := [("R", 10000)] },
        [Event.royaltiesE [("R", 10000)]]) :=
  ⟨((c7_royalty_boundary theInit authAll [("R", 10001)] rfl).1 (by decide)).1,
   (c7_royalty_boundary theInit authAll [("R", 10000)] rfl).2 (by decide)⟩

end ManaNFT

namespace ManaNFT

/-- The stored single-token approval, if any, does not name the caller. -/
def approvalNotFor (o : Option Addr) (caller : Addr) : Bool :=
  match o with
  | some a => !(a == caller)
  | none => true

/-- The stored operator approval, if any, is false. -/
def operatorAbsent (o : Option Bool) : Bool :=
  match o with
  | some b => !b
  | none => true

/-- The transfer authorization chain answers false when the caller is not
the sender, holds neither kind of approval, and the authority oracle
denies delegated authority. -/
theorem transferAuthorized_false {s : State} {auth : Addr → Bool}
    {caller fr owner : Addr} {tid : String} (hne : caller ≠ fr)
    (hap : approvalNotFor (s.approvals tid) caller = true)
    (hop : operatorAbsent (s.operators (caller, owner)) = true)
    (hauth : auth fr = false) :
    transferAuthorized s auth caller fr owner tid = false := by
  unfold transferAuthorized
  rw [if_neg hne]
  dsimp only
  cases happ : s.approvals tid with
  | none =>
    cases hopp : s.operators (caller, owner) with
    | none => simp [hauth]
    | some b =>
      rw [hopp] at hop
      simp only [operatorAbsent, Bool.not_eq_eq_eq_not, Bool.not_true] at hop
      simp [hop, hauth]
  | some a =>
    rw [happ] at hap
    simp only [approvalNotFor, Bool.not_eq_eq_eq_not, Bool.not_true] at hap
    cases hopp : s.operators (caller, owner) with
    | none => simp [hap, hauth]
    | some b =>
      rw [hopp] at hop
      simp only [operatorAbsent, Bool.not_eq_eq_eq_not, Bool.not_true] at hop
      simp [hap, hop, hauth]

/-- C3: a transfer of an existing token owned by the sender fails with
AuthorizationError — keeping the state unchanged — whenever the caller is
not the sender, holds no single-token approval for the token, holds no
operator approval for (caller, sender), and the authority oracle denies
delegated authority for the sender. -/
theorem c3_transfer_unauthorized (s : State) (caller : Addr)
    (auth : Addr → Bool) (fr dst : Addr) (tid : String)
    (htok : s.tokens tid = some fr) (hne : caller ≠ fr)
    (hap : approvalNotFor (s.approvals tid) caller = true)
    (hop : operatorAbsent (s.operators (caller, fr)) = true)
    (hauth : auth fr = false) :
    transfer s caller auth fr dst tid = .error .authorizationError ∧
    stOf (transfer s caller auth fr dst tid) s = s := by
  have hrun : transfer s caller auth fr dst tid = .error .authorizationError := by
    unfold transfer
    rw [htok]
    dsimp only
    rw [if_pos rfl, transferAuthorized_false hne hap hop hauth]
    rfl
  exact ⟨hrun, by rw [stOf.eq_def, hrun]⟩

/-- C3 witness: in the one-token state, a stranger X without approvals
and with a denying oracle cannot move token 1 away from its owner A. -/
theorem c3_transfer_unauthorized_witness :
    transfer sOne "X" authNone "A" "C" "1" = .error .authorizationError ∧
    stOf (transfer sOne "X" authNone "A" "C" "1") sOne = sOne :=
  c3_transfer_unauthorized sOne "X" authNone "A" "C" "1" (by decide)
    (by decide) (by decide) (by decide) rfl

end ManaNFT

namespace ManaNFT

/-- C4: after every successful transfer, the token's single-token
approval is absent and its owner is the recipient. -/
theorem c4_transfer_clears_approval (s : State) (caller : Addr)
    (auth : Addr → Bool) (fr dst : Addr) (tid : String) (s2 : State)
    (ev : List Event)
    (h : transfer s caller auth fr dst tid = .ok (s2, ev)) :
    get_approved s2 tid = none ∧ owner_of s2 tid = some dst := by
  unfold transfer at h
  split at h
  · exact absurd h (by simp)
  · split at h
    · split at h
      · unfold transferWrites at h
        dsimp only at h
        split at h
        · exact absurd h (by simp)
        · split at h
          · exact absurd h (by simp)
          · split at h
            · have hinj :=
                (Prod.mk.injEq _ _ _ _).mp ((Except.ok.injEq _ _).mp h)
              rw [← hinj.1]
              unfold get_approved owner_of
              dsimp only
              exact ⟨by simp, by simp⟩
            · exact absurd h (by simp)
      · exact absurd h (by simp)
    · exact absurd h (by simp)

/-- Concrete state in which owner A has approved token 1 to account B. -/
def sAppr : State := stOf (approve sOne authAll "A" "B" "1") sOne

/-- Concrete state after B, using that approval, transfers token 1 from A
to C. -/
def sBC : State := stOf (transfer sAppr "B" authNone "A" "C" "1") sAppr

/-- C4 witness: the spec's scenario — A approves token 1 to B, B
transfers it to C; afterwards get_approved is absent and owner_of is C. -/
theorem c4_transfer_clears_approval_witness :
    get_approved sBC "1" = none ∧ owner_of sBC "1" = some "C" :=
  c4_transfer_clears_approval sAppr "B" authNone "A" "C" "1" sBC
    (evOf (transfer sAppr "B" authNone "A" "C" "1")) rfl

end ManaNFT

namespace ManaNFT

/-- C10: a self-transfer of an owned, listed token by its owner succeeds,
and afterwards the stored balance has dropped by one while the account's
token list is the previous list with the token id appended (it now occurs
twice): for each doubly-written key the later put wins — the sender's
balance write and the recipient's token-list write. -/
theorem c10_self_transfer (s : State) (A : Addr) (t : String) (v : Nat)
    (auth : Addr → Bool)
    (hown : s.tokens t = some A) (hmem : t ∈ s.tokensOf A)
    (hbal : s.balances A = v) (hv : 1 ≤ v) (hu : v + 1 < U64LIMIT) :
    transfer s A auth A A t =
      .ok (stOf (transfer s A auth A A t) s, [Event.transferE A A t]) ∧
    (stOf (transfer s A auth A A t) s).balances A = v - 1 ∧
    (stOf (transfer s A auth A A t) s).tokensOf A = s.tokensOf A ++ [t] := by
  have hauth : transferAuthorized s auth A A A t = true := by
    unfold transferAuthorized
    rw [if_pos rfl]
  have hsub : safeSub (s.balances A) 1 = .ok (v - 1) := by
    rw [hbal]
    unfold safeSub
    rw [if_pos hv]
  have haddv : safeAdd (s.balances A) 1 = .ok (v + 1) := by
    rw [hbal]
    exact safeAdd_ok_of hu
  have hidx : (s.tokensOf A).indexOf t < (s.tokensOf A).length :=
    List.indexOf_lt_length.mpr hmem
  have hrun : transfer s A auth A A t = transferWrites s A A t := by
    unfold transfer
    rw [hown]
    dsimp only
    rw [if_pos rfl, if_pos hauth]
  rw [hrun]
  unfold transferWrites
  dsimp only
  rw [hsub, haddv]
  dsimp only
  rw [if_pos hidx]
  refine ⟨rfl, ?_, ?_⟩
  · simp [stOf]
  · simp [stOf]

/-- C10 witness: the self-transfer of token 1 by its owner A in the
one-token state. -/
theorem c10_self_transfer_witness :
    transfer sOne "A" authNone "A" "A" "1" =
      .ok (stOf (transfer sOne "A" authNone "A" "A" "1") sOne,
        [Event.transferE "A" "A" "1"]) ∧
    (stOf (transfer sOne "A" authNone "A" "A" "1") sOne).balances "A"
      = 1 - 1 ∧
    (stOf (transfer sOne "A" authNone "A" "A" "1") sOne).tokensOf "A"
      = sOne.tokensOf "A" ++ ["1"] :=
  c10_self_transfer sOne "A" "1" 1 authNone (by decide) (by decide)
    (by decide) (by decide) (by decide)

end ManaNFT

namespace ManaNFT

/-- Concrete state after the self-transfer used as C1's failing input:
mint one token to A, then transfer it from A to A. -/
def sSelf : State := stOf (transfer sOne "A" authNone "A" "A" "1") sOne

/-- C1 evaluation at the failing input: the self-transfer is accepted,
and afterwards account A's stored balance is 0 while the token record
with id 1 is still owned by A and A's token list has length 2 — the
stored balance, the owned-record count and the list length disagree. -/
theorem c1_ledger_invariant_eval :
    okE (transfer sOne "A" authNone "A" "A" "1") = true ∧
    balance_of sSelf "A" = 0 ∧
    owner_of sSelf "1" = some "A" ∧
    tokens_of sSelf "A" = ["1", "1"] := by
  refine ⟨rfl, rfl, rfl, rfl⟩

end ManaNFT

namespace ManaNFT

/-- The token ids assigned by a mint loop starting at idx with k
iterations: decimal strings of consecutive integers. -/
def mintIds (idx : Nat) : Nat → List String
  | 0 => []
  | Nat.succ k => toString idx :: mintIds (idx + 1) k

/-- The mint loop appends exactly the consecutive ids to the recipient's
token list and emits one mint event per id, in assignment order. -/
theorem mintLoop_spec (dst : Addr) :
    ∀ (k : Nat) (s : State) (idx : Nat),
      (mintLoop s dst idx k).1.tokensOf dst
          = s.tokensOf dst ++ mintIds idx k ∧
      (mintLoop s dst idx k).2 = (mintIds idx k).map (Event.mintE dst) := by
  intro k
  induction k with
  | zero =>
    intro s idx
    simp [mintLoop, mintIds]
  | succ k ih =>
    intro s idx
    simp only [mintLoop, mintIds]
    obtain ⟨ih1, ih2⟩ := ih
      { s with
        tokens := fun t => if t = toString idx then some dst else s.tokens t,
        tokensOf := fun a =>
          if a = dst then s.tokensOf dst ++ [toString idx]
          else s.tokensOf a }
      (idx + 1)
    refine ⟨?_, ?_⟩
    · rw [ih1]
      simp
    · rw [ih2]
      simp

/-- C5: whenever a mint of 3 tokens to X succeeds from a state with
supply s, the emitted events carry exactly the ids formed from s+1, s+2
and s+3 in assignment order, X's token list afterwards is its previous
list with those 3 ids appended, and X's balance grows by 3. -/
theorem c5_mint_roundtrip (s : State) (X : Addr) (c n d : Nat) (s2 : State)
    (ev : List Event) (l : Nat) (h : mint s X 3 c n d = .ok (s2, ev, l)) :
    ev = [Event.mintE X (toString (s.supply + 1)),
          Event.mintE X (toString (s.supply + 2)),
          Event.mintE X (toString (s.supply + 3))] ∧
    tokens_of s2 X = tokens_of s X ++
      [toString (s.supply + 1), toString (s.supply + 2),
        toString (s.supply + 3)] ∧
    balance_of s2 X = balance_of s X + 3 := by
  unfold mint at h
  split at h
  · exact absurd h (by simp)
  next tokens htok =>
    obtain ⟨rfl, _⟩ := safeAdd_ok htok
    split at h
    · split at h
      · exact absurd h (by simp)
      · split at h
        · split at h
          · exact absurd h (by simp)
          next start hstart =>
            obtain ⟨rfl, _⟩ := safeAdd_ok hstart
            split at h
            · exact absurd h (by simp)
            next newBal hbal =>
              obtain ⟨rfl, _⟩ := safeAdd_ok hbal
              split at h
              · split at h
                · exact absurd h (by simp)
                next newSupply hsup =>
                  injection hsup with hsup2
                  subst hsup2
                  dsimp only at h
                  split at h
                  · exact absurd h (by simp)
                  · split at h
                    · exact absurd h (by simp)
                    · split at h
                      · exact absurd h (by simp)
                      · injection h with h1
                        injection h1 with ha hb
                        injection hb with hb1 hb2
                        subst ha
                        subst hb1
                        obtain ⟨hl1, hl2⟩ :=
                          mintLoop_spec X 3 s (s.supply + 1)
                        refine ⟨?_, ?_, ?_⟩
                        · rw [hl2]
                          rfl
                        · unfold tokens_of
                          dsimp only
                          rw [hl1]
                          rfl
                        · unfold balance_of
                          simp
              · exact absurd h (by simp)
        · exact absurd h (by simp)
    · exact absurd h (by simp)

/-- C5 witness: minting 3 tokens to A from the initial state. -/
theorem c5_mint_roundtrip_witness :
    mintEvOf (mint theInit "A" 3 1 1 1) =
      [Event.mintE "A" (toString (theInit.supply + 1)),
        Event.mintE "A" (toString (theInit.supply + 2)),
        Event.mintE "A" (toString (theInit.supply + 3))] ∧
    tokens_of (mintStOf (mint theInit "A" 3 1 1 1) theInit) "A" =
      tokens_of theInit "A" ++
        [toString (theInit.supply + 1), toString (theInit.supply + 2),
          toString (theInit.supply + 3)] ∧
    balance_of (mintStOf (mint theInit "A" 3 1 1 1) theInit) "A" =
      balance_of theInit "A" + 3 :=
  c5_mint_roundtrip theInit "A" 1 1 1
    (mintStOf (mint theInit "A" 3 1 1 1) theInit)
    (mintEvOf (mint theInit "A" 3 1 1 1))
    (mintLoopsOf (mint theInit "A" 3 1 1 1)) rfl

end ManaNFT

namespace ManaNFT

theorem manaAttributed_ok {c n d a : Nat} (h : manaAttributed c n d = .ok a) :
    a = 1123019 * c + 282 * n + 66 * d := by
  unfold manaAttributed at h
  split at h
  · exact absurd h (by simp)
  next x hx =>
    obtain ⟨rfl, _⟩ := safeMul_ok hx
    split at h
    · exact absurd h (by simp)
    next y hy =>
      obtain ⟨rfl, _⟩ := safeMul_ok hy
      split at h
      · exact absurd h (by simp)
      next z hz =>
        obtain ⟨rfl, _⟩ := safeAdd_ok hz
        split at h
        · exact absurd h (by simp)
        next w hw =>
          obtain ⟨rfl, _⟩ := safeMul_ok hw
          obtain ⟨ha, _⟩ := safeAdd_ok h
          omega

theorem consumeManaLoops_ok {m cc l : Nat}
    (h : consumeManaLoops m cc = .ok l) : l = m / cc / 14 ∧ cc ≠ 0 := by
  unfold consumeManaLoops at h
  split at h
  · exact absurd h (by simp)
  next q hq =>
    obtain ⟨rfl, hcc⟩ := safeDiv_ok hq
    obtain ⟨rfl, _⟩ := safeDiv_ok h
    exact ⟨rfl, hcc⟩

/-- A successful mint performed exactly
(price*count − attributed) / computeCost / 14 work loop iterations, the
subtraction truncated at zero. -/
theorem mint_ok_loops {s : State} {dst : Addr} {count c n d : Nat}
    {s2 : State} {ev : List Event} {l : Nat}
    (h : mint s dst count c n d = .ok (s2, ev, l)) :
    c ≠ 0 ∧
    l = (s.manaCost * count - (1123019 * c + 282 * n + 66 * d)) / c / 14 := by
  unfold mint at h
  split at h
  · exact absurd h (by simp)
  next tokens htok =>
    obtain ⟨rfl, _⟩ := safeAdd_ok htok
    split at h
    · split at h
      · exact absurd h (by simp)
      · split at h
        · split at h
          · exact absurd h (by simp)
          next start hstart =>
            obtain ⟨rfl, _⟩ := safeAdd_ok hstart
            split at h
            · exact absurd h (by simp)
            next newBal hbal =>
              obtain ⟨rfl, _⟩ := safeAdd_ok hbal
              split at h
              · split at h
                · exact absurd h (by simp)
                next newSupply hsup =>
                  injection hsup with hsup2
                  subst hsup2
                  dsimp only at h
                  split at h
                  · exact absurd h (by simp)
                  next attributed hattr =>
                    have hattr2 := manaAttributed_ok hattr
                    subst hattr2
                    split at h
                    · exact absurd h (by simp)
                    next total htot =>
                      obtain ⟨rfl, _⟩ := safeMul_ok htot
                      rw [mintLoop_manaCost] at h
                      split at h
                      · exact absurd h (by simp)
                      next loops hloops =>
                        obtain ⟨hl1, hl2⟩ := consumeManaLoops_ok hloops
                        injection h with h1
                        injection h1 with ha hb
                        injection hb with hb1 hb2
                        subst hb2
                        refine ⟨hl2, ?_⟩
                        rw [hl1]
                        congr 2
                        split
                        · rfl
                        · omega
              · exact absurd h (by simp)
        · exact absurd h (by simp)
    · exact absurd h (by simp)

end ManaNFT

namespace ManaNFT

/-- Modelled from the spec: the residual mana a mint must deliberately
consume, max(0, price*count − attributed), written with truncated natural
subtraction. -/
def specResidualMana (price count c n d : Nat) : Nat :=
  price * count - (1123019 * c + 282 * n + 66 * d)

/-- C8: for every successful mint with configured price p and per-unit
costs (c, n, d), the residual mana equals
max(0, p*count − (1123019c + 282n + 66d)) — exact, since a successful run
had no u64 overflow — and the number of no-effect work loop iterations
performed is exactly (residual / c) / 14 with floor division. -/
theorem c8_mint_mana (s : State) (dst : Addr) (count c n d : Nat)
    (s2 : State) (ev : List Event) (l : Nat)
    (h : mint s dst count c n d = .ok (s2, ev, l)) :
    (specResidualMana s.manaCost count c n d : Int)
        = max 0 ((s.manaCost * count : Int)
            - (1123019 * c + 282 * n + 66 * d)) ∧
    l = specResidualMana s.manaCost count c n d / c / 14 := by
  refine ⟨?_, ?_⟩
  · unfold specResidualMana
    omega
  · rw [(mint_ok_loops h).2]
    unfold specResidualMana
    rfl

/-- C8 witness: minting one token from the initial state with unit
per-unit costs. -/
theorem c8_mint_mana_witness :
    (specResidualMana theInit.manaCost 1 1 1 1 : Int)
        = max 0 ((theInit.manaCost * 1 : Int)
            - (1123019 * 1 + 282 * 1 + 66 * 1)) ∧
    mintLoopsOf (mint theInit "A" 1 1 1 1)
        = specResidualMana theInit.manaCost 1 1 1 1 / 1 / 14 :=
  c8_mint_mana theInit "A" 1 1 1 1
    (mintStOf (mint theInit "A" 1 1 1 1) theInit)
    (mintEvOf (mint theInit "A" 1 1 1 1))
    (mintLoopsOf (mint theInit "A" 1 1 1 1)) rfl

end ManaNFT
